import Mathlib

/-
Verification of the island-network traversal engine ("a sea of islands").

The TypeScript source defines a class `IslandNetwork` (and its twin
`IslandTour`) holding
  - `graph        : Map<string, Neighbor[]>`
  - `populations  : Map<string, number>`
  - `lastVisit    : Map<string, number>`   (initialised to -Infinity)
  - `canoesAvailable      : number`
  - `resourcesDistributed : Set<string>`
with operations `dfs`/`findMaxExperiences`, `calculatePriority`,
`shareKnowledge`, and `distributeResource`/`distributeFrom`.

This file gives a shallow embedding of that code: JS `Map`s become
association lists with `Map.get`/`Map.set` semantics, JS `Set`s become
duplicate-free lists, JS numbers become `Int` (extended by an explicit
`JSNum` type where the code actually relies on `Infinity`/`NaN`
arithmetic), and the mutable recursion becomes explicit state passing.
Recursive methods are embedded with a fuel parameter; the public
wrappers supply fuel that exceeds the deepest possible recursion
(depth is bounded by the number of edges, because every descent adds a
fresh node to the path or plants a fresh node).
-/

namespace SeaOfIslands

/-- Edge record of the source: `{ node, travelTime, resourceOrExperienceTime }`
(named `experienceTime` in `Problem1.ts`/`Problem4.ts`). -/
structure Neighbor where
  node : String
  travelTime : Int
  resourceOrExperienceTime : Int
deriving DecidableEq

/-- The adjacency map `Map<string, Neighbor[]>`, as an association list. -/
abbrev Graph := List (String × List Neighbor)

/-- JS `Map.get`: the value at the first matching key, if any. -/
def mapGet {α : Type} (m : List (String × α)) (k : String) : Option α :=
  (m.find? (fun p => p.1 == k)).map (fun p => p.2)

/-- JS `Map.set`: replace any binding of `k` by `k ↦ v`.  (`Map.set` keeps
the old insertion position; since the source never iterates over these maps,
only `get`s them, a lookup-equivalent representation is faithful.) -/
def mapSet {α : Type} (m : List (String × α)) (k : String) (v : α) : List (String × α) :=
  (k, v) :: m.filter (fun p => !(p.1 == k))

/-- `this.graph.get(current) || []`: edges of a node, `[]` when unregistered. -/
def edgesOf (g : Graph) (n : String) : List Neighbor :=
  (mapGet g n).getD []

/-- The `for (const neighbor of neighbors)` loop of `dfs`, with the mutable
`visited : Set<string>` threaded explicitly.  `rec` is the recursive call at
one fuel level down.  For each neighbor not on the current path the code does
`visited.add`, computes `newTime`, recurses only when `newTime < 100`
(threshold `t` here), and then `visited.delete`s — hence the `List.erase`
after either branch. -/
def dfsLoop (t : Int)
    (rec : String → List String → Int → Nat → Nat → Nat × List String) :
    List Neighbor → List String → Int → Nat → Nat → Nat × List String
  | [], visited, _, cm, _ => (cm, visited)
  | nb :: rest, visited, tot, cm, c =>
    if nb.node ∈ visited then
      dfsLoop t rec rest visited tot cm c
    else
      if tot + nb.travelTime + nb.resourceOrExperienceTime < t then
        let r := rec nb.node (nb.node :: visited)
          (tot + nb.travelTime + nb.resourceOrExperienceTime) cm (c + 1)
        dfsLoop t rec rest (r.2.erase nb.node) tot r.1 c
      else
        dfsLoop t rec rest ((nb.node :: visited).erase nb.node) tot cm c

/-- The recursive method `dfs(current, visited, totalTime, maxExperiencesCount,
experienceCount)`.  It first sets `currentMaxExperiences = max(maxCount, count)`
and then runs the neighbor loop.  The source hardcodes the threshold `100`;
it is exposed here as the parameter `t` (spec §4.2 "expose as a configurable
parameter"), and the public wrapper instantiates `t = 100`.  The fuel
parameter bounds recursion depth; with fuel `0` the call returns
`max maxCount count` and leaves `visited` unchanged, which is also what the
source computes whenever every neighbor is already on the path. -/
def dfs (g : Graph) (t : Int) :
    Nat → String → List String → Int → Nat → Nat → Nat × List String
  | 0, _, visited, _, mc, c => (Nat.max mc c, visited)
  | fuel + 1, current, visited, tot, mc, c =>
    dfsLoop t (dfs g t fuel) (edgesOf g current) visited tot (Nat.max mc c) c

/-- Total number of edges stored in the graph. -/
def totalEdges (g : Graph) : Nat :=
  (g.map (fun p => p.2.length)).sum

/-- Fuel that exceeds any possible `dfs` recursion depth: every descent adds
a distinct edge target to the path, so depth is at most `totalEdges g + 1`. -/
def dfsFuel (g : Graph) : Nat :=
  totalEdges g + 1

/-- Spec §6 operation `maxReachableCount(start, budgetThreshold)`: `dfs` from
`start` with `visited = {start}`, `totalTime = 0`, `maxCount = 0`, `count = 1`. -/
def maxReachableCount (g : Graph) (t : Int) (start : String) : Nat :=
  (dfs g t (dfsFuel g) start [start] 0 0 1).1

/-- The source method `findMaxExperiences(start)`, threshold hardcoded to 100. -/
def findMaxExperiences (g : Graph) (start : String) : Nat :=
  maxReachableCount g 100 start

/-- The concrete graph of the spec scenario: `A→B` (total edge cost 15),
`A→C` (23), `B→D` (32); `C` and `D` are unregistered leaves. -/
def gC1 : Graph :=
  [("A", [⟨"B", 15, 0⟩, ⟨"C", 23, 0⟩]), ("B", [⟨"D", 32, 0⟩])]

example : findMaxExperiences gC1 "A" = 3 := by decide

/-- Helper: the neighbor loop leaves the visited set exactly as it found it,
provided each recursive call does (`visited.add` is always matched by
`visited.delete`). -/
lemma dfsLoop_snd (t : Int)
    (rec : String → List String → Int → Nat → Nat → Nat × List String)
    (hrec : ∀ n v tt m k, (rec n v tt m k).2 = v) :
    ∀ (l : List Neighbor) (vis : List String) (tot : Int) (cm c : Nat),
      (dfsLoop t rec l vis tot cm c).2 = vis := by
  intro l
  induction l with
  | nil => intro vis tot cm c; simp [dfsLoop]
  | cons nb rest ih =>
    intro vis tot cm c
    by_cases h : nb.node ∈ vis
    · simp only [dfsLoop, if_pos h]; exact ih vis tot cm c
    · by_cases h2 : tot + nb.travelTime + nb.resourceOrExperienceTime < t
      · simp only [dfsLoop, if_neg h, if_pos h2]
        rw [hrec, List.erase_cons_head]
        exact ih vis tot _ c
      · simp only [dfsLoop, if_neg h, if_neg h2]
        rw [List.erase_cons_head]
        exact ih vis tot cm c

/-- Helper: every `dfs` call returns the visited set it was given. -/
lemma dfs_snd (g : Graph) (t : Int) :
    ∀ (fuel : Nat) (cur : String) (vis : List String) (tot : Int) (mc c : Nat),
      (dfs g t fuel cur vis tot mc c).2 = vis := by
  intro fuel
  induction fuel with
  | zero => intro cur vis tot mc c; simp [dfs]
  | succ n ih =>
    intro cur vis tot mc c
    simp only [dfs]
    exact dfsLoop_snd t (dfs g t n) (fun a b e d f => ih a b e d f) _ _ _ _ _

/-- Helper: the loop accumulator only grows. -/
lemma dfsLoop_fst_le (t : Int)
    (rec : String → List String → Int → Nat → Nat → Nat × List String)
    (hrec : ∀ n v tt m k, m ≤ (rec n v tt m k).1) :
    ∀ (l : List Neighbor) (vis : List String) (tot : Int) (cm c : Nat),
      cm ≤ (dfsLoop t rec l vis tot cm c).1 := by
  intro l
  induction l with
  | nil => intro vis tot cm c; simp [dfsLoop]
  | cons nb rest ih =>
    intro vis tot cm c
    by_cases h : nb.node ∈ vis
    · simp only [dfsLoop, if_pos h]; exact ih vis tot cm c
    · by_cases h2 : tot + nb.travelTime + nb.resourceOrExperienceTime < t
      · simp only [dfsLoop, if_neg h, if_pos h2]
        exact le_trans (hrec _ _ _ _ _) (ih _ _ _ _)
      · simp only [dfsLoop, if_neg h, if_neg h2]
        exact ih _ _ cm c

/-- Helper: the result of `dfs` is at least the incoming best count. -/
lemma dfs_fst_le (g : Graph) (t : Int) :
    ∀ (fuel : Nat) (cur : String) (vis : List String) (tot : Int) (mc c : Nat),
      mc ≤ (dfs g t fuel cur vis tot mc c).1 := by
  intro fuel
  induction fuel with
  | zero => intro cur vis tot mc c; simp only [dfs]; exact Nat.le_max_left mc c
  | succ n ih =>
    intro cur vis tot mc c
    simp only [dfs]
    exact le_trans (Nat.le_max_left mc c)
      (dfsLoop_fst_le t (dfs g t n) (fun a b e d f => ih a b e d f) _ _ _ _ _)

/-- Helper: raising the threshold (and the incoming best count) can only
raise the count computed by the neighbor loop. -/
lemma dfsLoop_fst_mono (t1 t2 : Int)
    (rec1 rec2 : String → List String → Int → Nat → Nat → Nat × List String)
    (hs1 : ∀ n v tt m k, (rec1 n v tt m k).2 = v)
    (hs2 : ∀ n v tt m k, (rec2 n v tt m k).2 = v)
    (hlb : ∀ n v tt m k, m ≤ (rec2 n v tt m k).1)
    (hmono : ∀ n v tt m1 m2 k, m1 ≤ m2 → (rec1 n v tt m1 k).1 ≤ (rec2 n v tt m2 k).1)
    (ht : t1 ≤ t2) :
    ∀ (l : List Neighbor) (vis : List String) (tot : Int) (cm1 cm2 c : Nat),
      cm1 ≤ cm2 →
      (dfsLoop t1 rec1 l vis tot cm1 c).1 ≤ (dfsLoop t2 rec2 l vis tot cm2 c).1 := by
  intro l
  induction l with
  | nil => intro vis tot cm1 cm2 c hcm; simpa [dfsLoop] using hcm
  | cons nb rest ih =>
    intro vis tot cm1 cm2 c hcm
    by_cases h : nb.node ∈ vis
    · simp only [dfsLoop, if_pos h]; exact ih vis tot cm1 cm2 c hcm
    · by_cases h1 : tot + nb.travelTime + nb.resourceOrExperienceTime < t1
      · have h2 : tot + nb.travelTime + nb.resourceOrExperienceTime < t2 :=
          lt_of_lt_of_le h1 ht
        simp only [dfsLoop, if_neg h, if_pos h1, if_pos h2]
        rw [hs1, hs2, List.erase_cons_head]
        exact ih vis tot _ _ c (hmono _ _ _ _ _ _ hcm)
      · by_cases h2 : tot + nb.travelTime + nb.resourceOrExperienceTime < t2
        · simp only [dfsLoop, if_neg h, if_neg h1, if_pos h2]
          rw [hs2, List.erase_cons_head]
          exact ih vis tot cm1 _ c (le_trans hcm (hlb _ _ _ _ _))
        · simp only [dfsLoop, if_neg h, if_neg h1, if_neg h2]
          rw [List.erase_cons_head]
          exact ih vis tot cm1 cm2 c hcm

/-- Helper: `dfs` is monotone in the threshold and the incoming best count. -/
lemma dfs_fst_mono (g : Graph) (t1 t2 : Int) (ht : t1 ≤ t2) :
    ∀ (fuel : Nat) (cur : String) (vis : List String) (tot : Int) (mc1 mc2 c : Nat),
      mc1 ≤ mc2 →
      (dfs g t1 fuel cur vis tot mc1 c).1 ≤ (dfs g t2 fuel cur vis tot mc2 c).1 := by
  intro fuel
  induction fuel with
  | zero =>
    intro cur vis tot mc1 mc2 c hmc
    simp only [dfs]
    exact max_le_max hmc le_rfl
  | succ n ih =>
    intro cur vis tot mc1 mc2 c hmc
    simp only [dfs]
    exact dfsLoop_fst_mono t1 t2 (dfs g t1 n) (dfs g t2 n)
      (fun a b e d f => dfs_snd g t1 n a b e d f)
      (fun a b e d f => dfs_snd g t2 n a b e d f)
      (fun a b e d f => dfs_fst_le g t2 n a b e d f)
      (fun a b e d f m1 hm => ih a b e d f m1 hm)
      ht _ vis tot _ _ c (max_le_max hmc le_rfl)

/-- C1: on the concrete graph of the spec — edges `A→B` (total cost 15), `A→C`
(total cost 23), `B→D` (total cost 32) — with threshold 100 and start `A`,
`findMaxExperiences` returns exactly 3 (the path `A→B→D`, cost 47). -/
theorem claim_C1_concrete_scenario : findMaxExperiences gC1 "A" = 3 := by decide

/-- C2: for every graph, start node and pair of thresholds `t1 ≤ t2`, the
budget-constrained DFS enumerator at threshold `t2` returns at least its
result at threshold `t1`. -/
theorem claim_C2_threshold_monotone (g : Graph) (start : String) (t1 t2 : Int)
    (ht : t1 ≤ t2) :
    maxReachableCount g t1 start ≤ maxReachableCount g t2 start := by
  unfold maxReachableCount
  exact dfs_fst_mono g t1 t2 ht (dfsFuel g) start [start] 0 0 0 1 le_rfl

/-- Witness for C2 at a concrete input: the scenario graph with thresholds
50 and 100. -/
theorem claim_C2_witness :
    (50 : Int) ≤ 100 ∧ maxReachableCount gC1 50 "A" ≤ maxReachableCount gC1 100 "A" :=
  ⟨by decide, claim_C2_threshold_monotone gC1 "A" 50 100 (by decide)⟩

/-- C3: the threshold comparison is strict.  For a neighbor `nb` not on the
current path: if extending the path costs exactly the threshold `t`, the loop
skips that edge entirely (no recursion, accumulator and visited unchanged);
if the extension cost is strictly below `t`, the loop recurses into `nb.node`
with the extended path and cost and continues with the count from the recursion. -/
theorem claim_C3_strict_threshold (fuel : Nat) (g : Graph) (t : Int)
    (nb : Neighbor) (rest : List Neighbor) (visited : List String)
    (tot : Int) (cm c : Nat) (h : nb.node ∉ visited) :
    (tot + nb.travelTime + nb.resourceOrExperienceTime = t →
      dfsLoop t (dfs g t fuel) (nb :: rest) visited tot cm c
        = dfsLoop t (dfs g t fuel) rest visited tot cm c)
    ∧ (tot + nb.travelTime + nb.resourceOrExperienceTime < t →
      dfsLoop t (dfs g t fuel) (nb :: rest) visited tot cm c
        = dfsLoop t (dfs g t fuel) rest visited tot
            (dfs g t fuel nb.node (nb.node :: visited)
              (tot + nb.travelTime + nb.resourceOrExperienceTime) cm (c + 1)).1 c) := by
  constructor
  · intro heq
    have hlt : ¬ tot + nb.travelTime + nb.resourceOrExperienceTime < t := by omega
    simp only [dfsLoop, if_neg h, if_neg hlt]
    rw [List.erase_cons_head]
  · intro hlt
    simp only [dfsLoop, if_neg h, if_pos hlt]
    rw [dfs_snd, List.erase_cons_head]

/-- Witness for C3 at a concrete input: a single edge of total cost 100 from
the start, threshold 100 (rejected), and the strict branch at cost 40 + 60
with threshold 101 is not needed — both implications are exercised on the
empty graph with a concrete neighbor. -/
theorem claim_C3_witness :
    (("B" : String) ∉ ([] : List String))
    ∧ ((0 + (40 : Int) + 60 = 100 →
        dfsLoop 100 (dfs [] 100 0) (⟨"B", 40, 60⟩ :: []) [] 0 0 1
          = dfsLoop 100 (dfs [] 100 0) [] [] 0 0 1)
      ∧ (0 + (40 : Int) + 60 < 100 →
        dfsLoop 100 (dfs [] 100 0) (⟨"B", 40, 60⟩ :: []) [] 0 0 1
          = dfsLoop 100 (dfs [] 100 0) [] [] 0
              (dfs [] 100 0 "B" ["B"] (0 + 40 + 60) 0 (1 + 1)).1 1)) :=
  ⟨by decide, claim_C3_strict_threshold 0 [] 100 ⟨"B", 40, 60⟩ [] [] 0 0 1 (by decide)⟩

/-- C4: strict backtracking discipline of the DFS — every `dfs` call returns
with the visited set exactly equal to its value on entry (each `visited.add`
of a target before a descent is matched by an unconditional `visited.delete`
after that branch), so the visited set always reflects precisely the current
recursion stack. -/
theorem claim_C4_visited_restored (g : Graph) (t : Int) (fuel : Nat)
    (cur : String) (vis : List String) (tot : Int) (mc c : Nat) :
    (dfs g t fuel cur vis tot mc c).2 = vis :=
  dfs_snd g t fuel cur vis tot mc c

/-- The mutable fields touched by the distribution recursion:
`canoesAvailable : number` and `resourcesDistributed : Set<string>`. -/
structure DistState where
  canoesAvailable : Int
  resourcesDistributed : List String
deriving DecidableEq

/-- The `for (const neighbor of neighbors)` loop of `distributeResource`:
when `canoesAvailable > 0 && newTime < 100`, decrement the canoe counter,
recurse into the target with the updated cumulative cost, then increment the
counter back; otherwise skip the edge. -/
def distLoop (rec : String → Int → Nat → DistState → Nat × DistState) :
    List Neighbor → Int → Nat → DistState → Nat × DistState
  | [], _, rc, st => (rc, st)
  | nb :: rest, tot, rc, st =>
    if st.canoesAvailable > 0 ∧ tot + nb.travelTime + nb.resourceOrExperienceTime < 100 then
      let r := rec nb.node (tot + nb.travelTime + nb.resourceOrExperienceTime) rc
        { st with canoesAvailable := st.canoesAvailable - 1 }
      distLoop rec rest tot r.1 { r.2 with canoesAvailable := r.2.canoesAvailable + 1 }
    else
      distLoop rec rest tot rc st

/-- The recursive method `distributeResource(current, totalTime, resourceCount)`:
return unchanged when `current` already received a resource; otherwise add
`current` to the distributed set, increment the count, and run the edge loop. -/
def distributeResource (g : Graph) :
    Nat → String → Int → Nat → DistState → Nat × DistState
  | 0, _, _, rc, st => (rc, st)
  | fuel + 1, current, tot, rc, st =>
    if current ∈ st.resourcesDistributed then (rc, st)
    else
      distLoop (distributeResource g fuel) (edgesOf g current) tot (rc + 1)
        { st with resourcesDistributed := current :: st.resourcesDistributed }

/-- Fuel exceeding any `distributeResource` nesting depth: every nested call
except the innermost plants a distinct node, and at most `totalEdges g + 1`
distinct nodes are reachable. -/
def distFuel (g : Graph) : Nat :=
  totalEdges g + 2

/-- The method `distributeFrom(start)` (with the canoe pool of the constructor made
an explicit argument, spec §6 `distributeFrom(start, vehicleCount)`): clear the
distributed set, then recurse from `start` with cost 0 and count 0.  Returns
the count together with the final mutable state. -/
def distributeFromS (g : Graph) (canoes : Int) (start : String) : Nat × DistState :=
  distributeResource g (distFuel g) start 0 0 ⟨canoes, []⟩

/-- The return value of `distributeFrom`. -/
def distributeFrom (g : Graph) (canoes : Int) (start : String) : Nat :=
  (distributeFromS g canoes start).1

/-- Sanity check corresponding to the spec scenario: `A,B,C,D` all planted. -/
example : distributeFrom gC1 3 "A" = 4 := by decide

/-- Helper: the edge loop restores the canoe counter, provided each recursive
call does. -/
lemma distLoop_canoes (rec : String → Int → Nat → DistState → Nat × DistState)
    (hrec : ∀ n tt m st, ((rec n tt m st).2).canoesAvailable = st.canoesAvailable) :
    ∀ (l : List Neighbor) (tot : Int) (rc : Nat) (st : DistState),
      ((distLoop rec l tot rc st).2).canoesAvailable = st.canoesAvailable := by
  intro l
  induction l with
  | nil => intro tot rc st; simp [distLoop]
  | cons nb rest ih =>
    intro tot rc st
    by_cases h : st.canoesAvailable > 0 ∧ tot + nb.travelTime + nb.resourceOrExperienceTime < 100
    · simp only [distLoop, if_pos h]
      rw [ih]
      simp [hrec]
    · simp only [distLoop, if_neg h]
      exact ih tot rc st

/-- Helper: every `distributeResource` call returns with the canoe counter at
its entry value. -/
lemma distributeResource_canoes (g : Graph) :
    ∀ (fuel : Nat) (cur : String) (tot : Int) (rc : Nat) (st : DistState),
      ((distributeResource g fuel cur tot rc st).2).canoesAvailable = st.canoesAvailable := by
  intro fuel
  induction fuel with
  | zero => intro cur tot rc st; simp [distributeResource]
  | succ n ih =>
    intro cur tot rc st
    by_cases h : cur ∈ st.resourcesDistributed
    · simp [distributeResource, if_pos h]
    · simp only [distributeResource, if_neg h]
      rw [distLoop_canoes (distributeResource g n) (fun a b e d => ih a b e d)]

/-- Helper: the count grows by exactly the number of nodes added to the
distributed set — edge-loop version. -/
lemma distLoop_count (rec : String → Int → Nat → DistState → Nat × DistState)
    (hrec : ∀ n tt m st, (rec n tt m st).1 + st.resourcesDistributed.length
      = m + ((rec n tt m st).2).resourcesDistributed.length) :
    ∀ (l : List Neighbor) (tot : Int) (rc : Nat) (st : DistState),
      (distLoop rec l tot rc st).1 + st.resourcesDistributed.length
        = rc + ((distLoop rec l tot rc st).2).resourcesDistributed.length := by
  intro l
  induction l with
  | nil => intro tot rc st; simp [distLoop]
  | cons nb rest ih =>
    intro tot rc st
    by_cases h : st.canoesAvailable > 0 ∧ tot + nb.travelTime + nb.resourceOrExperienceTime < 100
    · simp only [distLoop, if_pos h]
      have h1 := hrec nb.node (tot + nb.travelTime + nb.resourceOrExperienceTime) rc
        { st with canoesAvailable := st.canoesAvailable - 1 }
      have h2 := ih tot
        ((rec nb.node (tot + nb.travelTime + nb.resourceOrExperienceTime) rc
          { st with canoesAvailable := st.canoesAvailable - 1 }).1)
        { (rec nb.node (tot + nb.travelTime + nb.resourceOrExperienceTime) rc
            { st with canoesAvailable := st.canoesAvailable - 1 }).2 with
          canoesAvailable := (rec nb.node (tot + nb.travelTime + nb.resourceOrExperienceTime) rc
            { st with canoesAvailable := st.canoesAvailable - 1 }).2.canoesAvailable + 1 }
      simp only at h1 h2 ⊢
      omega
    · simp only [distLoop, if_neg h]
      exact ih tot rc st

/-- Helper: the count grows by exactly the number of nodes added to the
distributed set — recursion version. -/
lemma distributeResource_count (g : Graph) :
    ∀ (fuel : Nat) (cur : String) (tot : Int) (rc : Nat) (st : DistState),
      (distributeResource g fuel cur tot rc st).1 + st.resourcesDistributed.length
        = rc + ((distributeResource g fuel cur tot rc st).2).resourcesDistributed.length := by
  intro fuel
  induction fuel with
  | zero => intro cur tot rc st; simp [distributeResource]
  | succ n ih =>
    intro cur tot rc st
    by_cases h : cur ∈ st.resourcesDistributed
    · simp [distributeResource, if_pos h]
    · simp only [distributeResource, if_neg h]
      have h2 := distLoop_count (distributeResource g n) (fun a b e d => ih a b e d)
        (edgesOf g cur) tot (rc + 1)
        { st with resourcesDistributed := cur :: st.resourcesDistributed }
      simp only [List.length_cons] at h2 ⊢
      omega

/-- Helper: the edge loop preserves freedom from duplicates of the distributed
set, provided each recursive call does. -/
lemma distLoop_nodup (rec : String → Int → Nat → DistState → Nat × DistState)
    (hrec : ∀ n tt m st, st.resourcesDistributed.Nodup →
      ((rec n tt m st).2).resourcesDistributed.Nodup) :
    ∀ (l : List Neighbor) (tot : Int) (rc : Nat) (st : DistState),
      st.resourcesDistributed.Nodup →
      ((distLoop rec l tot rc st).2).resourcesDistributed.Nodup := by
  intro l
  induction l with
  | nil => intro tot rc st hst; simpa [distLoop] using hst
  | cons nb rest ih =>
    intro tot rc st hst
    by_cases h : st.canoesAvailable > 0 ∧ tot + nb.travelTime + nb.resourceOrExperienceTime < 100
    · simp only [distLoop, if_pos h]
      exact ih tot _ _ (hrec _ _ _ _ hst)
    · simp only [distLoop, if_neg h]
      exact ih tot rc st hst

/-- Helper: `distributeResource` preserves freedom from duplicates of the
distributed set (it only adds nodes that pass the membership guard). -/
lemma distributeResource_nodup (g : Graph) :
    ∀ (fuel : Nat) (cur : String) (tot : Int) (rc : Nat) (st : DistState),
      st.resourcesDistributed.Nodup →
      ((distributeResource g fuel cur tot rc st).2).resourcesDistributed.Nodup := by
  intro fuel
  induction fuel with
  | zero => intro cur tot rc st hst; simpa [distributeResource] using hst
  | succ n ih =>
    intro cur tot rc st hst
    by_cases h : cur ∈ st.resourcesDistributed
    · simpa [distributeResource, if_pos h] using hst
    · simp only [distributeResource, if_neg h]
      exact distLoop_nodup (distributeResource g n) (fun a b e d => ih a b e d)
        (edgesOf g cur) tot (rc + 1) _ (List.Nodup.cons h hst)

/-- C7: stack-scoped backtracking of the canoe pool — every call of the
distribution recursion returns with `canoesAvailable` equal to its value on
entry (the decrement before each descent is matched by the increment after
it), so at any point the counter equals the initial pool minus the number of
open recursive descents. -/
theorem claim_C7_canoes_restored (g : Graph) (fuel : Nat) (cur : String)
    (tot : Int) (rc : Nat) (st : DistState) :
    ((distributeResource g fuel cur tot rc st).2).canoesAvailable = st.canoesAvailable :=
  distributeResource_canoes g fuel cur tot rc st

/-- C8: within one `distributeFrom` call every node is planted and counted at
most once — the returned total equals the number of distinct nodes in the
final (never rolled back) distributed set, and that set is duplicate-free. -/
theorem claim_C8_count_distinct (g : Graph) (canoes : Int) (start : String) :
    (distributeFromS g canoes start).1
        = ((distributeFromS g canoes start).2).resourcesDistributed.length
    ∧ ((distributeFromS g canoes start).2).resourcesDistributed.Nodup := by
  constructor
  · have h := distributeResource_count g (distFuel g) start 0 0 ⟨canoes, []⟩
    simpa [distributeFromS] using h
  · exact distributeResource_nodup g (distFuel g) start 0 0 ⟨canoes, []⟩ List.nodup_nil

/-- Helper: with no canoe available, the edge loop skips every edge. -/
lemma distLoop_no_canoe (rec : String → Int → Nat → DistState → Nat × DistState) :
    ∀ (l : List Neighbor) (tot : Int) (rc : Nat) (st : DistState),
      ¬ st.canoesAvailable > 0 → distLoop rec l tot rc st = (rc, st) := by
  intro l
  induction l with
  | nil => intro tot rc st _; simp [distLoop]
  | cons nb rest ih =>
    intro tot rc st hc
    have h : ¬ (st.canoesAvailable > 0 ∧ tot + nb.travelTime + nb.resourceOrExperienceTime < 100) := by
      intro hcontra; exact hc hcontra.1
    simp only [distLoop, if_neg h]
    exact ih tot rc st hc

/-- C9: for every graph and start node, `distributeFrom` with a canoe pool of
0 returns 1 — the start node is planted on entry, before any edge is
examined, and no descent can take place because each descent requires
`canoesAvailable > 0`. -/
theorem claim_C9_zero_pool_returns_one (g : Graph) (start : String) :
    distributeFrom g 0 start = 1 := by
  have hfuel : distFuel g = (totalEdges g + 1) + 1 := rfl
  unfold distributeFrom distributeFromS
  rw [hfuel]
  simp only [distributeResource, List.not_mem_nil, if_neg (fun h => h)]
  rw [distLoop_no_canoe _ (edgesOf g start) 0 (0 + 1) ⟨0, [start]⟩ (by simp)]

/-- A JS number as the source actually uses it: an exact integer, one of the
two infinities (`lastVisit` is initialised to `-Infinity`), or `NaN`.  The
arithmetic the source performs on these values (subtraction, multiplication,
comparison with `>`) follows the IEEE-754 special-value rules exactly — no
rounding is ever involved for the values in play. -/
inductive JSNum where
  | num : Int → JSNum
  | posInf : JSNum
  | negInf : JSNum
  | nan : JSNum
deriving DecidableEq

/-- JS truthiness of a number: `0` and `NaN` are falsy, everything else
(including the infinities) is truthy. -/
def jsTruthy : JSNum → Bool
  | JSNum.num a => !(a == 0)
  | JSNum.nan => false
  | _ => true

/-- The JS idiom `x || 0` applied to a possibly-missing map value:
`undefined` and falsy numbers collapse to `0`. -/
def jsOrZero : Option JSNum → JSNum
  | none => JSNum.num 0
  | some v => if jsTruthy v then v else JSNum.num 0

/-- IEEE-754 subtraction on the special values. -/
def jsSub : JSNum → JSNum → JSNum
  | JSNum.nan, _ => JSNum.nan
  | _, JSNum.nan => JSNum.nan
  | JSNum.posInf, JSNum.posInf => JSNum.nan
  | JSNum.posInf, _ => JSNum.posInf
  | JSNum.negInf, JSNum.negInf => JSNum.nan
  | JSNum.negInf, _ => JSNum.negInf
  | JSNum.num _, JSNum.posInf => JSNum.negInf
  | JSNum.num _, JSNum.negInf => JSNum.posInf
  | JSNum.num a, JSNum.num b => JSNum.num (a - b)

/-- IEEE-754 multiplication on the special values; in particular
`0 * ±Infinity = NaN`. -/
def jsMul : JSNum → JSNum → JSNum
  | JSNum.nan, _ => JSNum.nan
  | _, JSNum.nan => JSNum.nan
  | JSNum.num a, JSNum.num b => JSNum.num (a * b)
  | JSNum.num a, JSNum.posInf =>
    if 0 < a then JSNum.posInf else if a < 0 then JSNum.negInf else JSNum.nan
  | JSNum.num a, JSNum.negInf =>
    if 0 < a then JSNum.negInf else if a < 0 then JSNum.posInf else JSNum.nan
  | JSNum.posInf, JSNum.num b =>
    if 0 < b then JSNum.posInf else if b < 0 then JSNum.negInf else JSNum.nan
  | JSNum.negInf, JSNum.num b =>
    if 0 < b then JSNum.negInf else if b < 0 then JSNum.posInf else JSNum.nan
  | JSNum.posInf, JSNum.posInf => JSNum.posInf
  | JSNum.posInf, JSNum.negInf => JSNum.negInf
  | JSNum.negInf, JSNum.posInf => JSNum.negInf
  | JSNum.negInf, JSNum.negInf => JSNum.posInf

/-- IEEE-754 strict greater-than; any comparison involving `NaN` is false. -/
def jsGt : JSNum → JSNum → Bool
  | JSNum.nan, _ => false
  | _, JSNum.nan => false
  | JSNum.posInf, JSNum.posInf => false
  | JSNum.posInf, _ => true
  | JSNum.negInf, _ => false
  | JSNum.num _, JSNum.posInf => false
  | JSNum.num _, JSNum.negInf => true
  | JSNum.num a, JSNum.num b => decide (b < a)

/-- The full mutable state of the `IslandNetwork` class. -/
structure IslandNetwork where
  graph : Graph
  populations : List (String × Int)
  lastVisit : List (String × JSNum)
  canoesAvailable : Int
  resourcesDistributed : List String

/-- A fresh `new IslandNetwork(canoes)`. -/
def emptyNetwork (canoes : Int) : IslandNetwork :=
  ⟨[], [], [], canoes, []⟩

/-- The method `addIslandOrExperience(island, neighbors, population?)`:
set the adjacency list, and when a population is supplied also set the
population and initialise `lastVisit` to `-Infinity`. -/
def addIslandOrExperience (net : IslandNetwork) (island : String)
    (neighbors : List Neighbor) (population : Option Int) : IslandNetwork :=
  match population with
  | some p =>
    { net with
      graph := mapSet net.graph island neighbors
      populations := mapSet net.populations island p
      lastVisit := mapSet net.lastVisit island JSNum.negInf }
  | none => { net with graph := mapSet net.graph island neighbors }

/-- The method `calculatePriority(island)` with `Date.now()` supplied as
`now`: `(populations.get(island) || 0) * (now - (lastVisit.get(island) || 0))`.
Note that `-Infinity` is truthy in JS, so a never-visited registered island
keeps its `-Infinity` sentinel through the `|| 0`. -/
def calculatePriority (net : IslandNetwork) (now : Int) (island : String) : JSNum :=
  jsMul (jsOrZero ((mapGet net.populations island).map JSNum.num))
    (jsSub (JSNum.num now) (jsOrZero (mapGet net.lastVisit island)))

/-- C5 (code bug): the priority of a never-visited registered island.  With
population 500 the code does produce the maximal value `+Infinity`, but with
population 0 it computes `0 * (now - (-Infinity)) = 0 * Infinity = NaN`
instead of a maximal priority, contradicting the requirement of the spec
("must be treated as maximal, not NaN; test with population 0 explicitly"). -/
theorem claim_C5_population_zero_nan :
    calculatePriority (addIslandOrExperience (emptyNetwork 0) "A" [] (some 500)) 1700 "A"
        = JSNum.posInf
    ∧ calculatePriority (addIslandOrExperience (emptyNetwork 0) "A" [] (some 0)) 1700 "A"
        = JSNum.nan := by
  constructor <;> rfl

/-- Helper: looking up the key just `Map.set` yields the new value. -/
lemma mapGet_set_self {α : Type} (m : List (String × α)) (k : String) (v : α) :
    mapGet (mapSet m k v) k = some v := by
  simp [mapGet, mapSet, List.find?]

/-- Helper: `find?` for a different key is unaffected by filtering out `k`. -/
lemma find?_filter_ne {α : Type} (m : List (String × α)) (k k' : String) (h : k' ≠ k) :
    (m.filter (fun p => !(p.1 == k))).find? (fun p => p.1 == k')
      = m.find? (fun p => p.1 == k') := by
  induction m with
  | nil => rfl
  | cons p rest ih =>
    by_cases hp : p.1 = k
    · have h1 : (!(p.1 == k)) = false := by simp [hp]
      have h2 : (p.1 == k') = false := by
        simp only [beq_eq_false_iff_ne, hp]
        exact Ne.symm h
      simp only [List.filter_cons, h1, Bool.false_eq_true, if_false, ih, List.find?_cons, h2]
    · have h1 : (!(p.1 == k)) = true := by simp [hp]
      by_cases hq : p.1 = k'
      · have h2 : (p.1 == k') = true := by simp [hq]
        simp only [List.filter_cons, h1, if_true, List.find?_cons, h2]
      · have h2 : (p.1 == k') = false := by simp [hq]
        simp only [List.filter_cons, h1, if_true, List.find?_cons, h2, ih]

/-- Helper: looking up a different key after `Map.set` reads the old map. -/
lemma mapGet_set_other {α : Type} (m : List (String × α)) (k k' : String) (v : α)
    (h : k' ≠ k) : mapGet (mapSet m k v) k' = mapGet m k' := by
  have hk : (k == k') = false := by
    simp only [beq_eq_false_iff_ne]
    exact Ne.symm h
  simp only [mapGet, mapSet, List.find?_cons, hk]
  rw [find?_filter_ne m k k' h]

/-- Helper: `x || 0` on a present numeric value is that value (`0 || 0 = 0`). -/
lemma jsOrZero_num (a : Int) : jsOrZero (some (JSNum.num a)) = JSNum.num a := by
  by_cases h : a = 0 <;> simp [jsOrZero, jsTruthy, h]

/-- JS `Set.add`. -/
def addVisited (v : List String) (n : String) : List String :=
  if n ∈ v then v else n :: v

/-- The `for (const neighbor of neighbors)` loop of `shareKnowledge`: enqueue
the target (and mark it seen) when it has not been seen this traversal OR
when `Date.now() - (lastVisit.get(next) || 0) > visitInterval`. -/
def shareLoop (vi : Int) (now : Int) (lv : List (String × JSNum)) :
    List Neighbor → List String → List String → List String × List String
  | [], queue, visited => (queue, visited)
  | nb :: rest, queue, visited =>
    if nb.node ∉ visited
        ∨ jsGt (jsSub (JSNum.num now) (jsOrZero (mapGet lv nb.node))) (JSNum.num vi) = true then
      shareLoop vi now lv rest (queue ++ [nb.node]) (addVisited visited nb.node)
    else
      shareLoop vi now lv rest queue visited

/-- One iteration of the `while (queue.length > 0)` loop of `shareKnowledge`:
dequeue (`shift`), skip a falsy island name (`if (!currentIsland) continue` —
the empty string is the only falsy string), record `Date.now()` as the
records `lastVisit` of that island, then runs the neighbor loop.  The state is
`(queue, seen-this-traversal set, lastVisit map)`. -/
def shareStep (g : Graph) (vi : Int) (now : Int) :
    List String × List String × List (String × JSNum) →
    List String × List String × List (String × JSNum)
  | ([], visited, lv) => ([], visited, lv)
  | (cur :: rest, visited, lv) =>
    if cur = "" then (rest, visited, lv)
    else
      let lv1 := mapSet lv cur (JSNum.num now)
      let qv := shareLoop vi now lv1 (edgesOf g cur) rest visited
      (qv.1, qv.2, lv1)

/-- Iterate the broadcast loop `n` times, the `k`-th iteration reading
`Date.now() = clock k` (spec §6: timestamps come from an injected clock). -/
def shareRun (g : Graph) (vi : Int) (clock : Nat → Int) :
    Nat → List String × List String × List (String × JSNum) →
    List String × List String × List (String × JSNum)
  | 0, s => s
  | n + 1, s => shareStep g vi (clock n) (shareRun g vi clock n s)

/-- The two-node cycle `A↔B`, both islands registered with a population. -/
def netAB : IslandNetwork :=
  addIslandOrExperience
    (addIslandOrExperience (emptyNetwork 0) "A" [⟨"B", 5, 3⟩] (some 100))
    "B" [⟨"A", 5, 3⟩] (some 200)

/-- The adjacency map of the `A↔B` network. -/
def gAB : Graph := netAB.graph

/-- A strictly increasing clock: iteration `k` happens at time `k`. -/
def clk (n : Nat) : Int := (n : Int)

/-- The state of `shareKnowledge("A", 0)` on entry to the while loop:
`queue = [A]`, seen set `{A}`, and the registration-time `lastVisit` map. -/
def shareInit : List String × List String × List (String × JSNum) :=
  (["A"], ["A"], netAB.lastVisit)

/-- Helper: one broadcast iteration on the `A↔B` cycle with `visitInterval = 0`
dequeues the single queued island and re-enqueues the other one, because the
other island was last visited at the previous tick. -/
lemma shareStep_ping_pong (y x : String) (lv : List (String × JSNum)) (n : Int)
    (hedge : edgesOf gAB y = [⟨x, 5, 3⟩]) (hyx : x ≠ y) (hy : y ≠ "")
    (hxv : x ∈ ["B", "A"]) (hlv : mapGet lv x = some (JSNum.num n)) :
    shareStep gAB 0 (n + 1) ([y], ["B", "A"], lv)
      = ([x], ["B", "A"], mapSet lv y (JSNum.num (n + 1))) := by
  simp only [shareStep, if_neg hy]
  rw [hedge]
  have hget : mapGet (mapSet lv y (JSNum.num (n + 1))) x = some (JSNum.num n) := by
    rw [mapGet_set_other lv y x _ hyx, hlv]
  have hcond : jsGt (jsSub (JSNum.num (n + 1))
      (jsOrZero (mapGet (mapSet lv y (JSNum.num (n + 1))) x))) (JSNum.num 0) = true := by
    rw [hget, jsOrZero_num]
    simp only [jsSub, jsGt]
    simp
  simp only [shareLoop, if_pos (Or.inr hcond), addVisited, if_pos hxv, List.nil_append]

/-- Helper: after `n + 1` iterations of `shareKnowledge("A", 0)` on the
`A↔B` cycle, the queue holds exactly the island not just visited, and that
neighbor of that island (the one just visited) carries `lastVisit = n`. -/
lemma share_ping_pong_inv : ∀ n : Nat, ∃ y x lv,
    ((y = "A" ∧ x = "B") ∨ (y = "B" ∧ x = "A"))
    ∧ shareRun gAB 0 clk (n + 1) shareInit = ([y], ["B", "A"], lv)
    ∧ mapGet lv x = some (JSNum.num (n : Int)) := by
  intro n
  induction n with
  | zero =>
    refine ⟨"B", "A", [("A", JSNum.num 0), ("B", JSNum.negInf)], Or.inr ⟨rfl, rfl⟩, ?_, ?_⟩
    · decide
    · decide
  | succ m ih =>
    obtain ⟨y, x, lv, hyx, hrun, hlv⟩ := ih
    have hstep : shareRun gAB 0 clk (m + 2) shareInit
        = shareStep gAB 0 (clk (m + 1)) (shareRun gAB 0 clk (m + 1) shareInit) := rfl
    have hclk : clk (m + 1) = (m : Int) + 1 := by simp [clk]
    rcases hyx with ⟨hy, hx⟩ | ⟨hy, hx⟩
    · subst hy; subst hx
      refine ⟨"B", "A", mapSet lv "A" (JSNum.num ((m : Int) + 1)), Or.inr ⟨rfl, rfl⟩, ?_, ?_⟩
      · rw [hstep, hrun, hclk]
        exact shareStep_ping_pong "A" "B" lv (m : Int) (by decide) (by decide) (by decide)
          (by decide) hlv
      · have := mapGet_set_self lv "A" (JSNum.num ((m : Int) + 1))
        rw [this]
        norm_num
    · subst hy; subst hx
      refine ⟨"A", "B", mapSet lv "B" (JSNum.num ((m : Int) + 1)), Or.inl ⟨rfl, rfl⟩, ?_, ?_⟩
      · rw [hstep, hrun, hclk]
        exact shareStep_ping_pong "B" "A" lv (m : Int) (by decide) (by decide) (by decide)
          (by decide) hlv
      · have := mapGet_set_self lv "B" (JSNum.num ((m : Int) + 1))
        rw [this]
        norm_num

/-- C6: `shareKnowledge` with `visitInterval = 0` on the two-node cycle
`A↔B` (with a strictly increasing clock) never terminates: after any number
of loop iterations the work queue is still nonempty, so the engine alone
never exits the while loop without an externally imposed step limit. -/
theorem claim_C6_broadcast_nonterminating (n : Nat) :
    (shareRun gAB 0 clk n shareInit).1 ≠ [] := by
  cases n with
  | zero => decide
  | succ m =>
    obtain ⟨y, x, lv, _, hrun, _⟩ := share_ping_pong_inv m
    rw [hrun]
    simp

/-- The DFS neighbor loop with the whole object state threaded explicitly:
identical to `dfsLoop`, but every step passes the `IslandNetwork` along, so
that any write to a field would be visible in the returned state. -/
def dfsNetLoop (t : Int)
    (rec : String → List String → IslandNetwork → Int → Nat → Nat →
      Nat × List String × IslandNetwork) :
    List Neighbor → List String → IslandNetwork → Int → Nat → Nat →
      Nat × List String × IslandNetwork
  | [], visited, net, _, cm, _ => (cm, visited, net)
  | nb :: rest, visited, net, tot, cm, c =>
    if nb.node ∈ visited then
      dfsNetLoop t rec rest visited net tot cm c
    else
      if tot + nb.travelTime + nb.resourceOrExperienceTime < t then
        let r := rec nb.node (nb.node :: visited) net
          (tot + nb.travelTime + nb.resourceOrExperienceTime) cm (c + 1)
        dfsNetLoop t rec rest (r.2.1.erase nb.node) r.2.2 tot r.1 c
      else
        dfsNetLoop t rec rest ((nb.node :: visited).erase nb.node) net tot cm c

/-- The method `dfs` as a state transformer on the whole object: it reads
`this.graph` (`edgesOf net.graph current`) at every level and returns the
object state alongside the count and the visited set. -/
def dfsNet (t : Int) :
    Nat → String → List String → IslandNetwork → Int → Nat → Nat →
      Nat × List String × IslandNetwork
  | 0, _, visited, net, _, mc, c => (Nat.max mc c, visited, net)
  | fuel + 1, current, visited, net, tot, mc, c =>
    dfsNetLoop t (dfsNet t fuel) (edgesOf net.graph current) visited net tot
      (Nat.max mc c) c

/-- The method `findMaxExperiences(start)` as a state transformer. -/
def findMaxExperiencesNet (net : IslandNetwork) (start : String) :
    Nat × List String × IslandNetwork :=
  dfsNet 100 (dfsFuel net.graph) start [start] net 0 0 1

/-- Helper: the state-threaded neighbor loop returns the object unchanged,
provided each recursive call does. -/
lemma dfsNetLoop_net (t : Int)
    (rec : String → List String → IslandNetwork → Int → Nat → Nat →
      Nat × List String × IslandNetwork)
    (hrec : ∀ n v w tt m k, (rec n v w tt m k).2.2 = w) :
    ∀ (l : List Neighbor) (vis : List String) (net : IslandNetwork)
      (tot : Int) (cm c : Nat),
      (dfsNetLoop t rec l vis net tot cm c).2.2 = net := by
  intro l
  induction l with
  | nil => intro vis net tot cm c; simp [dfsNetLoop]
  | cons nb rest ih =>
    intro vis net tot cm c
    by_cases h : nb.node ∈ vis
    · simp only [dfsNetLoop, if_pos h]; exact ih vis net tot cm c
    · by_cases h2 : tot + nb.travelTime + nb.resourceOrExperienceTime < t
      · simp only [dfsNetLoop, if_neg h, if_pos h2]
        rw [hrec]
        exact ih _ net tot _ c
      · simp only [dfsNetLoop, if_neg h, if_neg h2]
        exact ih _ net tot cm c

/-- Helper: every state-threaded `dfs` call returns the object unchanged. -/
lemma dfsNet_net (t : Int) :
    ∀ (fuel : Nat) (cur : String) (vis : List String) (net : IslandNetwork)
      (tot : Int) (mc c : Nat),
      (dfsNet t fuel cur vis net tot mc c).2.2 = net := by
  intro fuel
  induction fuel with
  | zero => intro cur vis net tot mc c; simp [dfsNet]
  | succ n ih =>
    intro cur vis net tot mc c
    simp only [dfsNet]
    exact dfsNetLoop_net t (dfsNet t n) (fun a b e d f m => ih a b e d f m) _ _ _ _ _ _

/-- C10: the budget-constrained DFS enumerator has no side effects on the
shared object state — after `findMaxExperiences` returns, the graph store,
the populations map and the `lastVisit` metadata are unchanged (the traversal
only reads them). -/
theorem claim_C10_dfs_no_side_effects (net : IslandNetwork) (start : String) :
    (findMaxExperiencesNet net start).2.2.graph = net.graph
    ∧ (findMaxExperiencesNet net start).2.2.populations = net.populations
    ∧ (findMaxExperiencesNet net start).2.2.lastVisit = net.lastVisit := by
  have h : (findMaxExperiencesNet net start).2.2 = net :=
    dfsNet_net 100 (dfsFuel net.graph) start [start] net 0 0 1
  rw [h]
  exact ⟨rfl, rfl, rfl⟩

end SeaOfIslands
